import Mathlib

/-!
Shallow embedding of the MimSim core (src/mimsim/mimicry.py and
src/mimsim/controller.py) and proofs about it.

Modelling conventions:
* Python ints are `ℤ` (or `ℕ` where the source's setters keep them
  non-negative, as for `app`/`mem`); Python floats are embedded as exact
  rationals `ℚ` wherever the source only adds, multiplies, divides and
  compares, and as reals `ℝ` where `statistics.geometric_mean` (an n-th
  root) appears.
* `OrderedDict` pools are association lists `List (String × _)`; the
  source keeps them name-sorted, but none of the verified properties
  depend on sortedness, only on iteration order, so pools are quantified
  over arbitrary lists.
* `random.randrange(T)` and `random.random()` draws are passed in
  explicitly: integer draws as a `List ℕ` stream and real draws as a
  `List ℝ` stream, consumed exactly where the source consumes them.
* Python's in-place mutation of a selected `Prey` object is modelled by
  updating the pool at the selected position; selection therefore
  returns positions rather than object references.
-/

namespace Mimsim

/-- Prey state: the fields stored on a `Prey` instance.  `popu` is `ℤ`
because `Prey.__init__` stores whatever it is given without validation
(only the property setters validate). -/
structure Prey where
  popu : ℤ
  popu_orig : ℤ
  phen : String
  size : ℚ
  camo : ℚ
  pal : ℚ
deriving DecidableEq

instance : Inhabited Prey := ⟨⟨0, 0, "None", 1, 0, 1⟩⟩

/-- Python error kinds raised by the property setters. -/
inductive PyError
  | valueError
  | typeError
deriving DecidableEq

/-- Embeds `Prey.__init__`: every argument defaults, and the given
values are stored directly into the underscore fields, bypassing the
validating property setters (`self._popu = ...`, not `self.popu = ...`). -/
def Prey.init (popu : Option ℤ) (phen : Option String) (size : Option ℚ)
    (camo : Option ℚ) (pal : Option ℚ) : Prey :=
  let p := popu.getD 0
  { popu := p
    popu_orig := p
    phen := phen.getD ("None")
    size := size.getD 1
    camo := camo.getD 0
    pal := pal.getD 1 }

/-- Embeds the `camo` property setter: rejects values outside [0,1]. -/
def Prey.camoSet (pr : Prey) (value : ℚ) : Except PyError Prey :=
  if 0 ≤ value ∧ value ≤ 1 then .ok { pr with camo := value }
  else .error .valueError

/-- Embeds the `pal` property setter: rejects values outside [0,1]. -/
def Prey.palSet (pr : Prey) (value : ℚ) : Except PyError Prey :=
  if 0 ≤ value ∧ value ≤ 1 then .ok { pr with pal := value }
  else .error .valueError

/-- Embeds the `size` property setter: rejects non-positive values. -/
def Prey.sizeSet (pr : Prey) (value : ℚ) : Except PyError Prey :=
  if 0 < value then .ok { pr with size := value }
  else .error .valueError

/-- Embeds the `popu` property setter: rejects negative values. -/
def Prey.popuSet (pr : Prey) (value : ℤ) : Except PyError Prey :=
  if 0 ≤ value then .ok { pr with popu := value }
  else .error .valueError

/-- Embeds the `phen` property setter: rejects the empty string. -/
def Prey.phenSet (pr : Prey) (value : String) : Except PyError Prey :=
  if value = "" then .error .valueError
  else .ok { pr with phen := value }

/-- A prey pool is the `OrderedDict` of `name: Prey` pairs, as an
association list in iteration order. -/
abbrev PreyPool := List (String × Prey)

/-- Embeds `PreyPool._popu_of` for one entry: surviving (`popu`) or
original (`popu_orig`) count according to the mode. -/
def preyCountOf (p : Prey) (surviving_only : Bool) : ℤ :=
  if surviving_only then p.popu else p.popu_orig

/-- Embeds `PreyPool.popu()` with no species argument: the total over
all entries in the given mode. -/
def preyPopuTotal (pool : PreyPool) (surviving_only : Bool) : ℤ :=
  (pool.map (fun sp => preyCountOf sp.2 surviving_only)).sum

/-- Sum of surviving counts of the first `k` pool entries (the start of
the `k`-th entry's span in the selection walk). -/
def preySumBefore (pool : PreyPool) (k : ℕ) : ℤ :=
  ((pool.take k).map (fun sp => sp.2.popu)).sum

/-- Embeds the walk inside `PreyPool.select`: compare the running index
against each entry's SURVIVING count (`prey_obj.popu`, regardless of
mode, exactly as the source does) and return the position of the entry
whose span contains the index, or `none` if the walk falls off the end. -/
def preyWalk (pool : PreyPool) (idx : ℤ) : Option ℕ :=
  match pool with
  | [] => none
  | sp :: rest =>
      if idx < sp.2.popu then some 0
      else (preyWalk rest (idx - sp.2.popu)).map (· + 1)

/-- Embeds `PreyPool.select`: if the mode's total is zero return the
sentinel without consuming a draw; otherwise walk with the drawn index
`idx` (the source's `random.randrange(available_popu)` value). -/
def preySelect (pool : PreyPool) (surviving_only : Bool) (idx : ℤ) : Option ℕ :=
  if preyPopuTotal pool surviving_only = 0 then none
  else preyWalk pool idx

/-- Python's built-in `round` on an exact value: round half to even. -/
def pyRound (q : ℚ) : ℤ :=
  if q - Int.floor q < 1 / 2 then Int.floor q
  else if 1 / 2 < q - Int.floor q then Int.floor q + 1
  else if Int.floor q % 2 = 0 then Int.floor q else Int.floor q + 1

/-- Embeds `PreyPool.repopulate`: target defaults to the original
total; if the surviving total is zero every population is set to 0,
otherwise each is rescaled to `round(popu / surviving_total * target)`. -/
def repopulate (pool : PreyPool) (popu_target : Option ℤ) : PreyPool :=
  let target : ℤ := popu_target.getD (preyPopuTotal pool false)
  let prey_ct_latest : ℤ := preyPopuTotal pool true
  if prey_ct_latest = 0 then
    pool.map (fun sp => (sp.1, { sp.2 with popu := 0 }))
  else
    pool.map (fun sp =>
      (sp.1, { sp.2 with
        popu := pyRound ((sp.2.popu : ℚ) / (prey_ct_latest : ℚ) * (target : ℚ)) }))

/-- One predator individual: per-phenotype experience lists and the
cumulative amount eaten this generation. -/
structure Pred where
  prefs : List (String × List ℚ)
  prey_eaten : ℚ
deriving DecidableEq

instance : Inhabited Pred := ⟨⟨[], 0⟩⟩

/-- One predator species: appetite cap, memory length (both kept
non-negative by their setters, hence `ℕ`), the inert insatiability
flag, and the list of individuals. -/
structure PredatorSpecies where
  app : ℕ
  mem : ℕ
  insatiable : Bool
  lst : List Pred
deriving DecidableEq

instance : Inhabited PredatorSpecies := ⟨⟨0, 0, true, []⟩⟩

/-- Embeds `PredatorSpecies.hungry`: individual `i` is hungry when its
cumulative eaten amount is strictly below the appetite cap. -/
def PredatorSpecies.hungry (sp : PredatorSpecies) (i : ℕ) : Bool :=
  match sp.lst.get? i with
  | some pred => decide (pred.prey_eaten < (sp.app : ℚ))
  | none => false

/-- Positions of the hungry individuals of a species, in order (the
source's `[i for i in range(popu) if hungry(i)]`). -/
def hungryIndices (sp : PredatorSpecies) : List ℕ :=
  (List.range sp.lst.length).filter (fun i => sp.hungry i)

/-- Embeds `PredatorPool._popu_of` in hungry-only mode for one species. -/
def hungryCount (sp : PredatorSpecies) : ℕ :=
  (hungryIndices sp).length

/-- A predator pool is the `OrderedDict` of `name: PredatorSpecies`
pairs, as an association list in iteration order. -/
abbrev PredatorPool := List (String × PredatorSpecies)

/-- Eligible count of one predator species in the given mode. -/
def predCountOf (sp : PredatorSpecies) (hungry_only : Bool) : ℤ :=
  if hungry_only then (hungryCount sp : ℤ) else (sp.lst.length : ℤ)

/-- Embeds `PredatorPool.popu()` with no species argument. -/
def predPopuTotal (pool : PredatorPool) (hungry_only : Bool) : ℤ :=
  (pool.map (fun sp => predCountOf sp.2 hungry_only)).sum

/-- Sum of eligible counts of the first `k` predator pool entries. -/
def predSumBefore (pool : PredatorPool) (hungry_only : Bool) (k : ℕ) : ℤ :=
  ((pool.take k).map (fun sp => predCountOf sp.2 hungry_only)).sum

/-- Embeds the walk inside `PredatorPool.select`: subtract each
species' eligible count until the index falls in a species' span; in
hungry-only mode the individual is looked up in the filtered list of
hungry positions, otherwise the offset itself is the individual index.
Returns (species position, individual index). -/
def predWalk (pool : PredatorPool) (hungry_only : Bool) (idx : ℤ) :
    Option (ℕ × ℕ) :=
  match pool with
  | [] => none
  | sp :: rest =>
      if idx < predCountOf sp.2 hungry_only then
        if hungry_only then
          some (0, (hungryIndices sp.2).getD idx.toNat 0)
        else
          some (0, idx.toNat)
      else
        (predWalk rest hungry_only (idx - predCountOf sp.2 hungry_only)).map
          (fun r => (r.1 + 1, r.2))

/-- Embeds `PredatorPool.select`: sentinel when the mode's total is
zero, otherwise walk with the drawn index. -/
def predSelect (pool : PredatorPool) (hungry_only : Bool) (idx : ℤ) :
    Option (ℕ × ℕ) :=
  if predPopuTotal pool hungry_only = 0 then none
  else predWalk pool hungry_only idx

/-- Embeds the body of `PredatorSpecies.update_pref` acting on one
history list: append the newest palatability, then if the list has
grown beyond `mem` keep `lst[-mem:]`.  Python's `lst[-0:]` is the whole
list, so `mem = 0` performs no trimming, exactly as in the source. -/
def update_hist (mem : ℕ) (hist : List ℚ) (pal : ℚ) : List ℚ :=
  let h := hist ++ [pal]
  if mem < h.length then
    if mem = 0 then h else h.drop (h.length - mem)
  else h

/-- Embeds the lazy key creation in `PredatorSpecies.eat`: ensure the
phenotype has a history entry before updating it. -/
def ensureKey (prefs : List (String × List ℚ)) (phen : String) :
    List (String × List ℚ) :=
  if (prefs.lookup phen).isSome then prefs else prefs ++ [(phen, [])]

/-- Dict update `pred.prefs[phen] = newHist` (keys are unique in the
source's dict, so updating every matching key is the same operation). -/
def setPref (prefs : List (String × List ℚ)) (phen : String)
    (newHist : List ℚ) : List (String × List ℚ) :=
  prefs.map (fun kv => if kv.1 = phen then (kv.1, newHist) else kv)

/-- Embeds `PredatorSpecies.eat` on one individual: create the history
entry if missing, run `update_pref`, then add the prey's size to the
cumulative eaten amount. -/
def Pred.eatUpd (mem : ℕ) (pred : Pred) (prey : Prey) : Pred :=
  let prefs1 := ensureKey pred.prefs prey.phen
  let hist := (prefs1.lookup prey.phen).getD []
  { prefs := setPref prefs1 prey.phen (update_hist mem hist prey.pal)
    prey_eaten := pred.prey_eaten + prey.size }

/-- Embeds `PredatorSpecies.eat`: update individual `i` in place. -/
def PredatorSpecies.eat (sp : PredatorSpecies) (i : ℕ) (prey : Prey) :
    PredatorSpecies :=
  { sp with lst := sp.lst.set i (Pred.eatUpd sp.mem (sp.lst.getD i default) prey) }

/-- Geometric mean of a list of (rational-valued) observations, the
real-number meaning of `statistics.geometric_mean`. -/
noncomputable def geomMean (xs : List ℚ) : ℝ :=
  ((xs.map (fun q => (q : ℝ))).prod) ^ ((xs.length : ℝ)⁻¹)

/-- Embeds `PredatorSpecies.get_pref` for one individual: 1 with no
history entry or an empty one, 0 if any stored experience is exactly 0,
otherwise the geometric mean of the window with its last element
repeated once. -/
noncomputable def get_pref (pred : Pred) (phen : String) : ℝ :=
  match pred.prefs.lookup phen with
  | none => 1
  | some experiences =>
      if experiences = [] then 1
      else if 0 ∈ experiences then 0
      else geomMean (experiences ++ [experiences.getLast!])

/-- Pursuit probability computed in `PredatorSpecies.encounter`:
`1 * (1 - camo) * preference`. -/
noncomputable def pursuit_chance (sp : PredatorSpecies) (i : ℕ) (prey : Prey) : ℝ :=
  1 * (1 - (prey.camo : ℝ)) * get_pref (sp.lst.getD i default) prey.phen

/-- Embeds `PredatorSpecies.encounter`: return failure immediately if
the individual is not hungry (consuming no draw); otherwise consume one
uniform real draw `r` and eat exactly when the pursuit chance is ≥ r.
Returns (ate?, updated species, remaining real-draw stream). -/
noncomputable def encounter (sp : PredatorSpecies) (i : ℕ) (prey : Prey)
    (draws : List ℝ) : Bool × PredatorSpecies × List ℝ :=
  if sp.hungry i then
    match draws with
    | [] => (false, sp, [])
    | r :: rest =>
        if r ≤ pursuit_chance sp i prey then (true, sp.eat i prey, rest)
        else (false, sp, rest)
  else (false, sp, draws)

/-- State threaded through one generation: both pools plus the two
random-draw streams (integer draws for `randrange`, real draws for
`random.random`). -/
structure GenState where
  prey : PreyPool
  preds : PredatorPool
  natDraws : List ℕ
  realDraws : List ℝ

/-- Prey-selection step of a cycle: `prey_pool.select(surviving_only=False)`,
consuming one integer draw only when the mode's total is non-zero.
Returns the selected position (or the sentinel) and the remaining
integer-draw stream. -/
def preySelStep (pool : PreyPool) (nats : List ℕ) : Option ℕ × List ℕ :=
  if preyPopuTotal pool false = 0 then (none, nats)
  else
    match nats with
    | [] => (none, [])
    | d :: rest => (preyWalk pool (d : ℤ), rest)

/-- Predator-selection step of a cycle:
`pred_pool.select(hungry_only=False)`. -/
def predSelStep (pool : PredatorPool) (nats : List ℕ) :
    Option (ℕ × ℕ) × List ℕ :=
  if predPopuTotal pool false = 0 then (none, nats)
  else
    match nats with
    | [] => (none, [])
    | d :: rest => (predWalk pool false (d : ℤ), rest)

/-- Resolution step of a cycle: if both selections succeeded, run the
encounter and decrement the eaten prey's population on success;
otherwise nothing happens (in the source a `(None, None)` predator
selection would raise before the check, but it is unreachable because
the loop guard guarantees at least one predator). -/
noncomputable def resolveStep (prey : PreyPool) (preds : PredatorPool)
    (preySel : Option ℕ) (predSel : Option (ℕ × ℕ)) (nats : List ℕ)
    (reals : List ℝ) : GenState :=
  match preySel, predSel with
  | some j, some ki =>
      let prey_item := (prey.getD j default).2
      let sp := (preds.getD ki.1 default).2
      let res := encounter sp ki.2 prey_item reals
      let preds' := preds.set ki.1 ((preds.getD ki.1 default).1, res.2.1)
      let prey' :=
        if res.1 then
          prey.set j ((prey.getD j default).1,
            { prey_item with popu := prey_item.popu - 1 })
        else prey
      { prey := prey', preds := preds', natDraws := nats, realDraws := res.2.2 }
  | _, _ =>
      { prey := prey, preds := preds, natDraws := nats, realDraws := reals }

/-- One draw-resolve cycle of `one_gen`'s loop body: select a prey
individual (weighted by original counts but walked by surviving counts,
as the source does), select a predator individual (all-individuals
mode), resolve the encounter. -/
noncomputable def cycle (st : GenState) : GenState :=
  let p := preySelStep st.prey st.natDraws
  let q := predSelStep st.preds p.2
  resolveStep st.prey st.preds p.1 q.1 q.2 st.realDraws

/-- Surviving-prey/hungry-predator guard of `one_gen`'s loop. -/
def genCond (st : GenState) : Prop :=
  0 < preyPopuTotal st.prey true ∧ 0 < predPopuTotal st.preds true

instance (st : GenState) : Decidable (genCond st) := by
  unfold genCond; infer_instance

/-- Embeds `one_gen`'s loop: up to `n` cycles, stopping (via `break`)
the first time the guard fails. -/
noncomputable def oneGenGo : ℕ → GenState → GenState
  | 0, st => st
  | n + 1, st => if genCond st then oneGenGo n (cycle st) else st

/-- Embeds `one_gen` (the deep copies are value copies here). -/
noncomputable def one_gen (prey_in : PreyPool) (pred_in : PredatorPool)
    (number_of_encounters : ℕ) (nats : List ℕ) (reals : List ℝ) : GenState :=
  oneGenGo number_of_encounters
    { prey := prey_in, preds := pred_in, natDraws := nats, realDraws := reals }

/-- Embeds `multi_gen`'s loop: each generation replaces the predator
pool with a fresh copy of the input, repopulates the prey pool with the
default target, then runs `one_gen`, threading the draw streams. -/
noncomputable def multiGenGo (pred_in : PredatorPool)
    (number_of_encounters : ℕ) :
    ℕ → PreyPool → PredatorPool → List ℕ → List ℝ →
      PreyPool × PredatorPool × List ℕ × List ℝ
  | 0, prey, predCur, nats, reals => (prey, predCur, nats, reals)
  | g + 1, prey, _, nats, reals =>
      let st := one_gen (repopulate prey none) pred_in number_of_encounters nats reals
      multiGenGo pred_in number_of_encounters g st.prey st.preds
        st.natDraws st.realDraws

/-- Embeds `multi_gen`: run `generations` generations, then repopulate
once more if the `repopulate` flag is set. -/
noncomputable def multi_gen (prey_in : PreyPool) (pred_in : PredatorPool)
    (number_of_encounters : ℕ) (generations : ℕ) (repop : Bool)
    (nats : List ℕ) (reals : List ℝ) :
    PreyPool × PredatorPool × List ℕ × List ℝ :=
  let r := multiGenGo pred_in number_of_encounters generations prey_in pred_in nats reals
  if repop then (repopulate r.1 none, r.2.1, r.2.2.1, r.2.2.2) else r

/-- Simulation parameters (title and output concerns are external). -/
structure Simulation where
  prey_pool : PreyPool
  pred_pool : PredatorPool
  encounters : ℕ
  generations : ℕ
  repetitions : ℕ
  repop : Bool

/-- Embeds the non-verbose branch of `Simulation.run_raw`: one
`multi_gen` call per trial, yielding `(trial, 1, prey_out, pred_out)`
and threading the draw streams between trials. -/
noncomputable def runRawTerseGo (sim : Simulation) :
    ℕ → ℕ → List ℕ → List ℝ →
      List (ℕ × ℕ × PreyPool × PredatorPool)
  | 0, _, _, _ => []
  | t + 1, trial, nats, reals =>
      let r := multi_gen sim.prey_pool sim.pred_pool sim.encounters
        sim.generations sim.repop nats reals
      (trial, 1, r.1, r.2.1) :: runRawTerseGo sim t (trial + 1) r.2.2.1 r.2.2.2

/-- Terse-mode `Simulation.run_raw`: trials numbered from 1. -/
noncomputable def run_raw_terse (sim : Simulation) (nats : List ℕ)
    (reals : List ℝ) : List (ℕ × ℕ × PreyPool × PredatorPool) :=
  runRawTerseGo sim sim.repetitions 1 nats reals

/-! ## Claim C2: preference computation -/

/-- C2: for every predator individual and phenotype, `get_pref` returns
1 if the phenotype has no history entry or an empty one; 0 if any
recorded experience in the stored window is exactly 0; otherwise the
geometric mean of the stored window concatenated with a duplicate of
its last element; in particular for history [0.8, 0.6, 0.4] the
preference is the geometric mean of [0.8, 0.6, 0.4, 0.4]. -/
theorem C2_preference_computation (pred : Pred) (phen : String) :
    (pred.prefs.lookup phen = none → get_pref pred phen = 1) ∧
    (pred.prefs.lookup phen = some [] → get_pref pred phen = 1) ∧
    (∀ es, pred.prefs.lookup phen = some es → 0 ∈ es →
      get_pref pred phen = 0) ∧
    (∀ es, pred.prefs.lookup phen = some es → es ≠ [] → 0 ∉ es →
      get_pref pred phen = geomMean (es ++ [es.getLast!])) ∧
    (pred.prefs.lookup phen = some [(8 : ℚ)/10, 6/10, 4/10] →
      get_pref pred phen = geomMean [(8 : ℚ)/10, 6/10, 4/10, 4/10]) := by
  refine ⟨fun h => ?_, fun h => ?_, fun es h h0 => ?_, fun es h hne h0 => ?_,
    fun h => ?_⟩
  · simp [get_pref, h]
  · simp [get_pref, h]
  · simp [get_pref, h, List.ne_nil_of_mem h0, h0]
  · simp [get_pref, h, hne, h0]
  · have hne : ([(8 : ℚ)/10, 6/10, 4/10] : List ℚ) ≠ [] := by simp
    have h0 : (0 : ℚ) ∉ ([(8 : ℚ)/10, 6/10, 4/10] : List ℚ) := by
      norm_num [List.mem_cons]
    have hl : ([(8 : ℚ)/10, 6/10, 4/10] : List ℚ).getLast! = (4 : ℚ)/10 := rfl
    simp [get_pref, h, hne, h0, hl]

/-- C2 witness: a concrete individual with history [0.8, 0.6, 0.4]. -/
theorem C2_preference_computation_witness :
    (Pred.mk [("x", [(8 : ℚ)/10, 6/10, 4/10])] 0).prefs.lookup "x" =
      some [(8 : ℚ)/10, 6/10, 4/10] ∧
    get_pref (Pred.mk [("x", [(8 : ℚ)/10, 6/10, 4/10])] 0) "x" =
      geomMean [(8 : ℚ)/10, 6/10, 4/10, 4/10] :=
  ⟨rfl,
    (C2_preference_computation (Pred.mk [("x", [(8 : ℚ)/10, 6/10, 4/10])] 0)
      "x").2.2.2.2 rfl⟩

/-! ## Claim C3: satiation is an atomic failure -/

/-- C3: if an individual's cumulative eaten amount has reached its
species' appetite cap, `encounter` returns False with the species state
unchanged and no random draw consumed, for every prey input. -/
theorem C3_satiation_atomic (sp : PredatorSpecies) (i : ℕ)
    (hi : i < sp.lst.length)
    (h : (sp.app : ℚ) ≤ (sp.lst.get ⟨i, hi⟩).prey_eaten)
    (prey : Prey) (draws : List ℝ) :
    encounter sp i prey draws = (false, sp, draws) := by
  have hget : sp.lst.get? i = some (sp.lst.get ⟨i, hi⟩) := List.get?_eq_get hi
  have hh : sp.hungry i = false := by
    unfold PredatorSpecies.hungry
    rw [hget]
    exact decide_eq_false (not_lt.mpr h)
  simp [encounter, hh]

/-- C3 witness: a satiated individual (eaten 2 ≥ appetite 2) and an
arbitrary prey; the encounter fails and touches nothing. -/
theorem C3_satiation_atomic_witness :
    0 < (PredatorSpecies.mk 2 3 true [Pred.mk [] 2]).lst.length ∧
    encounter (PredatorSpecies.mk 2 3 true [Pred.mk [] 2]) 0
        (Prey.mk 5 5 "a" 1 0 1) [(1 : ℝ)/2] =
      (false, PredatorSpecies.mk 2 3 true [Pred.mk [] 2], [(1 : ℝ)/2]) :=
  ⟨by decide,
    C3_satiation_atomic (PredatorSpecies.mk 2 3 true [Pred.mk [] 2]) 0
      (by decide) (by norm_num) (Prey.mk 5 5 "a" 1 0 1) [(1 : ℝ)/2]⟩

/-! ## Shared helper lemmas -/

/-- Rounding an integer value returns it unchanged. -/
theorem pyRound_intCast (n : ℤ) : pyRound (n : ℚ) = n := by
  unfold pyRound
  rw [Int.floor_intCast, sub_self]
  norm_num

/-- Positional default lookup commutes with `map` at in-range indices. -/
theorem getD_map_at {α β : Type} [Inhabited α] [Inhabited β] (l : List α)
    (f : α → β) (k : ℕ) (hk : k < l.length) :
    (l.map f).getD k default = f (l.getD k default) := by
  induction l generalizing k with
  | nil => simp at hk
  | cons a t ih =>
    cases k with
    | zero => simp
    | succ m =>
        simp only [List.map_cons, List.getD_cons_succ]
        exact ih m (by simpa using hk)

/-- In a list of non-negative integers with zero sum, every element is
zero. -/
theorem sum_zero_of_nonneg {l : List ℤ} (hnn : ∀ x ∈ l, 0 ≤ x)
    (h : l.sum = 0) : ∀ x ∈ l, x = 0 := by
  induction l with
  | nil => simp
  | cons a t ih =>
    simp only [List.sum_cons] at h
    have ha : 0 ≤ a := hnn a (by simp)
    have ht : 0 ≤ t.sum := List.sum_nonneg fun x hx => hnn x (by simp [hx])
    intro x hx
    rcases List.mem_cons.mp hx with rfl | hx
    · linarith
    · exact ih (fun y hy => hnn y (by simp [hy])) (by linarith) x hx

/-! ## Claim C5: repopulation rule -/

/-- C5: with an unspecified target `repopulate` uses the sum of
original populations as target and behaves identically to passing that
target explicitly; if the surviving total is 0 every species'
population becomes 0; otherwise each species' new population is
`round(popu / surviving_total * target)`. -/
theorem C5_repopulation_rule (pool : PreyPool) (k : ℕ) (hk : k < pool.length) :
    repopulate pool none = repopulate pool (some (preyPopuTotal pool false)) ∧
    (preyPopuTotal pool true = 0 →
      ((repopulate pool none).getD k default).2.popu = 0) ∧
    (preyPopuTotal pool true ≠ 0 →
      ((repopulate pool none).getD k default).2.popu =
        pyRound (((pool.getD k default).2.popu : ℚ) /
          (preyPopuTotal pool true : ℚ) * (preyPopuTotal pool false : ℚ))) := by
  refine ⟨rfl, fun h0 => ?_, fun hne => ?_⟩
  · unfold repopulate
    rw [Option.getD_none, if_pos h0, getD_map_at pool _ k hk]
  · unfold repopulate
    rw [Option.getD_none, if_neg hne, getD_map_at pool _ k hk]

/-- C5 witness: a concrete two-species pool with surviving total 3 and
original total 6. -/
theorem C5_repopulation_rule_witness :
    0 < ([("a", Prey.mk 1 2 "a" 1 0 1), ("b", Prey.mk 2 4 "b" 1 0 1)] :
      PreyPool).length ∧
    (preyPopuTotal [("a", Prey.mk 1 2 "a" 1 0 1), ("b", Prey.mk 2 4 "b" 1 0 1)]
        true ≠ 0 →
      ((repopulate [("a", Prey.mk 1 2 "a" 1 0 1), ("b", Prey.mk 2 4 "b" 1 0 1)]
          none).getD 0 default).2.popu =
        pyRound ((((([("a", Prey.mk 1 2 "a" 1 0 1),
            ("b", Prey.mk 2 4 "b" 1 0 1)] : PreyPool).getD 0
              default).2.popu : ℚ)) /
          (preyPopuTotal [("a", Prey.mk 1 2 "a" 1 0 1),
            ("b", Prey.mk 2 4 "b" 1 0 1)] true : ℚ) *
          (preyPopuTotal [("a", Prey.mk 1 2 "a" 1 0 1),
            ("b", Prey.mk 2 4 "b" 1 0 1)] false : ℚ))) :=
  ⟨by decide,
    (C5_repopulation_rule
      [("a", Prey.mk 1 2 "a" 1 0 1), ("b", Prey.mk 2 4 "b" 1 0 1)] 0
      (by decide)).2.2⟩

/-! ## Claim C9: repopulation idempotence under no mortality -/

/-- C9: if every species' current population equals its original
population (no mortality) and populations are non-negative, then
`repopulate` with target equal to the original total restores each
species to exactly its pre-generation count. -/
theorem C9_repopulation_idempotent (pool : PreyPool)
    (hno : ∀ sp ∈ pool, sp.2.popu = sp.2.popu_orig)
    (hnn : ∀ sp ∈ pool, 0 ≤ sp.2.popu)
    (k : ℕ) (hk : k < pool.length) :
    ((repopulate pool (some (preyPopuTotal pool false))).getD k
        default).2.popu = (pool.getD k default).2.popu := by
  have htot : preyPopuTotal pool true = preyPopuTotal pool false := by
    unfold preyPopuTotal
    congr 1
    refine List.map_congr_left fun sp hsp => ?_
    simp [preyCountOf, hno sp hsp]
  have hmem : pool.getD k default ∈ pool := by
    rw [List.getD_eq_getElem?_getD, List.getElem?_eq_getElem hk]
    exact List.getElem_mem _
  by_cases h0 : preyPopuTotal pool true = 0
  · have hall : ∀ x ∈ pool.map (fun sp => sp.2.popu), x = 0 := by
      refine sum_zero_of_nonneg ?_ ?_
      · intro x hx
        obtain ⟨sp, hsp, rfl⟩ := List.mem_map.mp hx
        exact hnn sp hsp
      · have : preyPopuTotal pool true =
            (pool.map (fun sp => sp.2.popu)).sum := by
          simp [preyPopuTotal, preyCountOf]
        rw [← this, h0]
    have hkz : (pool.getD k default).2.popu = 0 :=
      hall _ (List.mem_map.mpr ⟨_, hmem, rfl⟩)
    unfold repopulate
    rw [Option.getD_some, if_pos h0, getD_map_at pool _ k hk, hkz]
  · unfold repopulate
    rw [Option.getD_some, if_neg h0, getD_map_at pool _ k hk]
    have hcast : (preyPopuTotal pool true : ℚ) ≠ 0 := by
      exact_mod_cast h0
    rw [← htot, div_mul_cancel₀ _ hcast]
    exact pyRound_intCast _

/-- C9 witness: a concrete pool with no mortality. -/
theorem C9_repopulation_idempotent_witness :
    (∀ sp ∈ ([("a", Prey.mk 2 2 "a" 1 0 1), ("b", Prey.mk 3 3 "b" 1 0 1)] :
        PreyPool), sp.2.popu = sp.2.popu_orig) ∧
    ((repopulate [("a", Prey.mk 2 2 "a" 1 0 1), ("b", Prey.mk 3 3 "b" 1 0 1)]
        (some (preyPopuTotal
          [("a", Prey.mk 2 2 "a" 1 0 1), ("b", Prey.mk 3 3 "b" 1 0 1)]
          false))).getD 1 default).2.popu =
      (([("a", Prey.mk 2 2 "a" 1 0 1), ("b", Prey.mk 3 3 "b" 1 0 1)] :
        PreyPool).getD 1 default).2.popu :=
  ⟨by decide,
    C9_repopulation_idempotent
      [("a", Prey.mk 2 2 "a" 1 0 1), ("b", Prey.mk 3 3 "b" 1 0 1)]
      (by decide) (by decide) 1 (by decide)⟩

/-! ## Claim C7: construction-time validation -/

/-- C7: the claim asserts constructing a `Prey` with out-of-range
values raises at construction; in the code `Prey.__init__` writes the
private fields directly, bypassing the validating property setters, so
the invalid values are stored silently — the very same values every
setter rejects.  This theorem evaluates the embedded constructor at the
failing inputs and the setters at the same values. -/
theorem C7_init_bypasses_validation :
    (Prey.init none none none (some 3) none).camo = 3 ∧
    (Prey.init none none none none (some 3)).pal = 3 ∧
    (Prey.init (some (-5)) none none none none).popu = -5 ∧
    (Prey.init none (some ("")) none none none).phen = "" ∧
    (Prey.init none none (some 0) none none).size = 0 ∧
    Prey.camoSet default 3 = .error .valueError ∧
    Prey.palSet default 3 = .error .valueError ∧
    Prey.popuSet default (-5) = .error .valueError ∧
    Prey.phenSet default ("") = .error .valueError ∧
    Prey.sizeSet default 0 = .error .valueError := by
  refine ⟨rfl, rfl, rfl, rfl, rfl, ?_, ?_, ?_, ?_, ?_⟩
  · simp [Prey.camoSet]
  · simp [Prey.palSet]
  · simp [Prey.popuSet]
  · simp [Prey.phenSet]
  · simp [Prey.sizeSet]

/-! ## Claim C6: memory trimming -/

/-- Suffix of the last `m` elements of a list. -/
def lastN {α : Type} (m : ℕ) (l : List α) : List α :=
  l.drop (l.length - m)

/-- Length of the last-`m` suffix. -/
theorem lastN_length {α : Type} (m : ℕ) (l : List α) :
    (lastN m l).length = l.length - (l.length - m) := by
  simp [lastN]

/-- A list no longer than `m` is its own last-`m` suffix. -/
theorem lastN_of_le {α : Type} (m : ℕ) (l : List α) (h : l.length ≤ m) :
    lastN m l = l := by
  simp [lastN, Nat.sub_eq_zero_of_le h]

/-- Trimming to the last `m`, appending, and trimming again is the same
as trimming the whole concatenation. -/
theorem lastN_append_left {α : Type} (m : ℕ) (l l₂ : List α) :
    lastN m (lastN m l ++ l₂) = lastN m (l ++ l₂) := by
  by_cases hm : l.length ≤ m
  · rw [lastN_of_le m l hm]
  · unfold lastN
    rw [show List.drop (l.length - m) l ++ l₂ =
        List.drop (l.length - m) (l ++ l₂) from
      (List.drop_append_of_le_length (by omega)).symm,
      List.drop_drop]
    congr 1
    simp only [List.length_drop, List.length_append]
    omega

/-- One `update_pref` step equals append-then-trim, for positive `mem`. -/
theorem update_hist_eq_lastN (mem : ℕ) (hmem : 0 < mem) (hist : List ℚ)
    (pal : ℚ) : update_hist mem hist pal = lastN mem (hist ++ [pal]) := by
  unfold update_hist
  by_cases h : mem < (hist ++ [pal]).length
  · rw [if_pos h, if_neg (Nat.pos_iff_ne_zero.mp hmem)]
    rfl
  · rw [if_neg h]
    exact (lastN_of_le _ _ (Nat.not_lt.mp h)).symm

/-- Trimming the concatenation ignores the left part once the right
part alone is at least `m` long. -/
theorem lastN_append_right {α : Type} (m : ℕ) (l₁ l₂ : List α)
    (h : m ≤ l₂.length) : lastN m (l₁ ++ l₂) = lastN m l₂ := by
  unfold lastN
  rw [show (l₁ ++ l₂).length - m = l₁.length + (l₂.length - m) by
      simp only [List.length_append]; omega,
    List.drop_append]

/-- Lookup distributes over an append whose left part misses the key. -/
theorem lookup_append_of_none {α β : Type} [BEq α] (l₁ l₂ : List (α × β))
    (a : α) (h : l₁.lookup a = none) :
    (l₁ ++ l₂).lookup a = l₂.lookup a := by
  induction l₁ with
  | nil => simp
  | cons kv t ih =>
      obtain ⟨k, v⟩ := kv
      cases hkv : a == k with
      | true => simp [List.lookup, hkv] at h
      | false =>
          simp only [List.lookup, hkv] at h
          simp only [List.cons_append, List.lookup, hkv]
          exact ih h

/-- Lookup after `ensureKey` always finds a history, the existing one
or a fresh empty one. -/
theorem lookup_ensureKey (prefs : List (String × List ℚ)) (phen : String) :
    (ensureKey prefs phen).lookup phen = some ((prefs.lookup phen).getD []) := by
  unfold ensureKey
  cases h : prefs.lookup phen with
  | some v => simp [h]
  | none =>
      simp only [h, Option.isSome_none, Bool.false_eq_true, if_false,
        Option.getD_none]
      rw [lookup_append_of_none _ _ _ h]
      simp [List.lookup]

/-- Lookup after `setPref` on a present key returns the new history. -/
theorem lookup_setPref (prefs : List (String × List ℚ)) (phen : String)
    (nh : List ℚ) (h : (prefs.lookup phen).isSome) :
    (setPref prefs phen nh).lookup phen = some nh := by
  induction prefs with
  | nil => simp at h
  | cons kv t ih =>
      obtain ⟨k, v⟩ := kv
      by_cases hk : k = phen
      · subst hk
        simp only [setPref, List.map_cons]
        simp [List.lookup]
      · have hbeq : (phen == k) = false := by
          simp [Ne.symm hk]
        simp only [List.lookup, hbeq] at h
        simp only [setPref, List.map_cons]
        rw [show (if ((k, v) : String × List ℚ).1 = phen
            then (((k, v) : String × List ℚ).1, nh) else (k, v)) = (k, v)
          from by simp [hk]]
        simp only [List.lookup, hbeq]
        simpa [setPref] using ih h

/-- Effect of one `eat` on the eaten phenotype's stored history. -/
theorem eatUpd_lookup (mem : ℕ) (pred : Pred) (prey : Prey) :
    (Pred.eatUpd mem pred prey).prefs.lookup prey.phen =
      some (update_hist mem ((pred.prefs.lookup prey.phen).getD [])
        prey.pal) := by
  unfold Pred.eatUpd
  have h1 := lookup_ensureKey pred.prefs prey.phen
  rw [lookup_setPref _ _ _ (by rw [h1]; rfl), h1]
  simp

/-- Variant of `eatUpd_lookup` with the phenotype given abstractly. -/
theorem eatUpd_lookup_of_phen (mem : ℕ) (pred : Pred) (prey : Prey)
    (ph : String) (h : prey.phen = ph) :
    (Pred.eatUpd mem pred prey).prefs.lookup ph =
      some (update_hist mem ((pred.prefs.lookup ph).getD []) prey.pal) := by
  subst h
  exact eatUpd_lookup mem pred prey

/-- After a nonempty run of eats of phenotype `ph`, the stored history
is exactly the trimmed concatenation of the prior history and the
observed palatability values. -/
theorem foldl_eatUpd_lookup (mem : ℕ) (hmem : 0 < mem) (ph : String) :
    ∀ preys : List Prey, preys ≠ [] → (∀ pr ∈ preys, pr.phen = ph) →
    ∀ pred0 : Pred,
      (List.foldl (fun pr py => Pred.eatUpd mem pr py) pred0
        preys).prefs.lookup ph =
      some (lastN mem (((pred0.prefs.lookup ph).getD []) ++
        preys.map (fun p => p.pal))) := by
  intro preys
  induction preys with
  | nil => intro h; exact absurd rfl h
  | cons p rest ih =>
      intro _ hph pred0
      have hp : p.phen = ph := hph p (by simp)
      cases rest with
      | nil =>
          simp only [List.foldl_cons, List.foldl_nil]
          rw [eatUpd_lookup_of_phen mem pred0 p ph hp,
            update_hist_eq_lastN mem hmem]
          simp
      | cons q qs =>
          simp only [List.foldl_cons]
          have := ih (by simp) (fun pr hpr => hph pr (by simp [hpr]))
            (Pred.eatUpd mem pred0 p)
          simp only [List.foldl_cons] at this
          rw [this, eatUpd_lookup_of_phen mem pred0 p ph hp]
          simp only [Option.getD_some]
          rw [update_hist_eq_lastN mem hmem, lastN_append_left]
          simp

/-! ## Claim C6: memory trimming -/

/-- C6: for positive memory `mem`, after any sequence of more than
`mem` eats of the same phenotype the stored history for that phenotype
has length exactly `mem` (so it never exceeds `mem`) and consists of
exactly the most recent `mem` observed palatability values,
most-recent-last. -/
theorem C6_memory_trimming (mem : ℕ) (hmem : 0 < mem) (ph : String)
    (preys : List Prey) (hph : ∀ pr ∈ preys, pr.phen = ph)
    (hlen : mem < preys.length) (pred0 : Pred) :
    ∃ hist,
      (List.foldl (fun pr py => Pred.eatUpd mem pr py) pred0
        preys).prefs.lookup ph = some hist ∧
      hist.length = mem ∧
      hist = lastN mem (preys.map (fun p => p.pal)) := by
  have hne : preys ≠ [] := by
    intro h
    rw [h] at hlen
    simp at hlen
  have hfold := foldl_eatUpd_lookup mem hmem ph preys hne hph pred0
  have hmap : mem ≤ (preys.map (fun p => p.pal)).length := by
    rw [List.length_map]; omega
  refine ⟨_, hfold, ?_, lastN_append_right mem _ _ hmap⟩
  rw [lastN_append_right mem _ _ hmap, lastN_length, List.length_map]
  omega

/-- C6 witness: memory 2, three eats of phenotype "x" with palatability
values 1, 2, 3; the stored history is [2, 3]. -/
theorem C6_memory_trimming_witness :
    0 < 2 ∧ (2 : ℕ) < ([Prey.mk 1 1 "x" 1 0 1, Prey.mk 1 1 "x" 1 0 2,
      Prey.mk 1 1 "x" 1 0 3] : List Prey).length ∧
    ∃ hist,
      (List.foldl (fun pr py => Pred.eatUpd 2 pr py) (Pred.mk [] 0)
        [Prey.mk 1 1 "x" 1 0 1, Prey.mk 1 1 "x" 1 0 2,
          Prey.mk 1 1 "x" 1 0 3]).prefs.lookup "x" = some hist ∧
      hist.length = 2 ∧
      hist = lastN 2 (([Prey.mk 1 1 "x" 1 0 1, Prey.mk 1 1 "x" 1 0 2,
        Prey.mk 1 1 "x" 1 0 3] : List Prey).map (fun p => p.pal)) :=
  ⟨by decide, by decide,
    C6_memory_trimming 2 (by decide) "x"
      [Prey.mk 1 1 "x" 1 0 1, Prey.mk 1 1 "x" 1 0 2, Prey.mk 1 1 "x" 1 0 3]
      (by decide) (by decide) (Pred.mk [] 0)⟩

/-! ## Claim C1: weighted selection -/

/-- Walk lemma for prey selection in surviving-only mode: the walk
lands on the entry whose cumulative surviving-count span contains the
drawn index. -/
theorem preyWalk_spec (pool : PreyPool) (idx : ℤ)
    (hnn : ∀ sp ∈ pool, 0 ≤ sp.2.popu) (h0 : 0 ≤ idx)
    (hlt : idx < preyPopuTotal pool true) :
    ∃ k, preyWalk pool idx = some k ∧ k < pool.length ∧
      preySumBefore pool k ≤ idx ∧
      idx < preySumBefore pool k + (pool.getD k default).2.popu := by
  induction pool generalizing idx with
  | nil =>
      exfalso
      simp [preyPopuTotal] at hlt
      omega
  | cons sp rest ih =>
      have hsum : preyPopuTotal (sp :: rest) true =
          sp.2.popu + preyPopuTotal rest true := by
        simp [preyPopuTotal, preyCountOf]
      by_cases hcase : idx < sp.2.popu
      · refine ⟨0, ?_, by simp, ?_, ?_⟩
        · simp [preyWalk, hcase]
        · simpa [preySumBefore] using h0
        · simpa [preySumBefore] using hcase
      · have hnn' : ∀ q ∈ rest, 0 ≤ q.2.popu := fun q hq => hnn q (by simp [hq])
        have h0' : 0 ≤ idx - sp.2.popu := by omega
        have hlt' : idx - sp.2.popu < preyPopuTotal rest true := by omega
        obtain ⟨k, hw, hk, hlb, hub⟩ := ih (idx - sp.2.popu) hnn' h0' hlt'
        refine ⟨k + 1, ?_, by simpa using Nat.succ_lt_succ hk, ?_, ?_⟩
        · simp [preyWalk, hcase, hw]
        · simp only [preySumBefore, List.take_succ_cons, List.map_cons,
            List.sum_cons] at *
          omega
        · simp only [preySumBefore, List.take_succ_cons, List.map_cons,
            List.sum_cons, List.getD_cons_succ] at *
          omega

/-- Membership in the hungry-position list means the individual is
hungry. -/
theorem hungryIndices_hungry (sp : PredatorSpecies) (j : ℕ)
    (h : j ∈ hungryIndices sp) : sp.hungry j = true := by
  unfold hungryIndices at h
  exact (List.mem_filter.mp h).2

/-- Walk lemma for predator selection in hungry-only mode: the walk
lands on the species whose cumulative hungry-count span contains the
index, and picks the offset-th hungry individual of that species. -/
theorem predWalk_hungry_spec (pool : PredatorPool) (idx : ℤ) (h0 : 0 ≤ idx)
    (hlt : idx < predPopuTotal pool true) :
    ∃ k j, predWalk pool true idx = some (k, j) ∧ k < pool.length ∧
      predSumBefore pool true k ≤ idx ∧
      idx < predSumBefore pool true k +
        (hungryCount (pool.getD k default).2 : ℤ) ∧
      j = (hungryIndices (pool.getD k default).2).getD
        (idx - predSumBefore pool true k).toNat 0 ∧
      (pool.getD k default).2.hungry j = true := by
  induction pool generalizing idx with
  | nil =>
      exfalso
      simp [predPopuTotal] at hlt
      omega
  | cons sp rest ih =>
      have hsum : predPopuTotal (sp :: rest) true =
          predCountOf sp.2 true + predPopuTotal rest true := by
        simp [predPopuTotal]
      have hcnt : predCountOf sp.2 true = (hungryCount sp.2 : ℤ) := by
        simp [predCountOf]
      by_cases hcase : idx < predCountOf sp.2 true
      · have hidxlt : idx.toNat < (hungryIndices sp.2).length := by
          rw [hcnt] at hcase
          unfold hungryCount at hcase
          omega
        have hmem : (hungryIndices sp.2).getD idx.toNat 0 ∈
            hungryIndices sp.2 := by
          rw [List.getD_eq_getElem?_getD, List.getElem?_eq_getElem hidxlt]
          exact List.getElem_mem _
        refine ⟨0, (hungryIndices sp.2).getD idx.toNat 0, ?_, by simp, ?_,
          ?_, ?_, ?_⟩
        · simp [predWalk, hcase]
        · simpa [predSumBefore] using h0
        · rw [hcnt] at hcase
          simpa [predSumBefore] using hcase
        · simp [predSumBefore]
        · simpa using hungryIndices_hungry sp.2 _ hmem
      · have h0' : 0 ≤ idx - predCountOf sp.2 true := by
          have : 0 ≤ predCountOf sp.2 true := by rw [hcnt]; positivity
          omega
        have hlt' : idx - predCountOf sp.2 true < predPopuTotal rest true := by
          omega
        obtain ⟨k, j, hw, hk, hlb, hub, hj, hh⟩ :=
          ih (idx - predCountOf sp.2 true) h0' hlt'
        refine ⟨k + 1, j, ?_, by simpa using Nat.succ_lt_succ hk, ?_, ?_, ?_, ?_⟩
        · simp [predWalk, hcase, hw]
        · simp only [predSumBefore, List.take_succ_cons, List.map_cons,
            List.sum_cons] at *
          omega
        · simp only [predSumBefore, List.take_succ_cons, List.map_cons,
            List.sum_cons, List.getD_cons_succ] at *
          omega
        · rw [hj]
          simp only [List.getD_cons_succ, predSumBefore, List.take_succ_cons,
            List.map_cons, List.sum_cons]
          congr 2
          omega
        · simpa using hh

/-- C1: in the population-counting modes the claim names (surviving
only for `PreyPool.select`, hungry only for `PredatorPool.select`), a
zero total makes `select` return the no-selection sentinel, and a
positive total makes every uniform index in [0, T) select the pool
member whose eligible-count span contains that index (for predators,
the offset-th hungry individual of the landed species). -/
theorem C1_weighted_selection (pool : PreyPool) (ppool : PredatorPool) :
    (preyPopuTotal pool true = 0 →
      ∀ idx : ℤ, preySelect pool true idx = none) ∧
    ((∀ sp ∈ pool, 0 ≤ sp.2.popu) →
      ∀ idx : ℤ, 0 ≤ idx → idx < preyPopuTotal pool true →
        ∃ k, preySelect pool true idx = some k ∧ k < pool.length ∧
          preySumBefore pool k ≤ idx ∧
          idx < preySumBefore pool k + (pool.getD k default).2.popu) ∧
    (predPopuTotal ppool true = 0 →
      ∀ idx : ℤ, predSelect ppool true idx = none) ∧
    (∀ idx : ℤ, 0 ≤ idx → idx < predPopuTotal ppool true →
      ∃ k j, predSelect ppool true idx = some (k, j) ∧ k < ppool.length ∧
        predSumBefore ppool true k ≤ idx ∧
        idx < predSumBefore ppool true k +
          (hungryCount (ppool.getD k default).2 : ℤ) ∧
        j = (hungryIndices (ppool.getD k default).2).getD
          (idx - predSumBefore ppool true k).toNat 0 ∧
        (ppool.getD k default).2.hungry j = true) := by
  refine ⟨fun h idx => ?_, fun hnn idx h0 hlt => ?_, fun h idx => ?_,
    fun idx h0 hlt => ?_⟩
  · simp [preySelect, h]
  · have hne : preyPopuTotal pool true ≠ 0 := by omega
    have := preyWalk_spec pool idx hnn h0 hlt
    simpa [preySelect, hne] using this
  · simp [predSelect, h]
  · have hne : predPopuTotal ppool true ≠ 0 := by omega
    have := predWalk_hungry_spec ppool idx h0 hlt
    simpa [predSelect, hne] using this

/-- C1 witness: a two-species prey pool with surviving counts 2 and 3
(index 3 lands in the second span) and a one-species predator pool with
one hungry and one satiated individual (index 0 picks the hungry one). -/
theorem C1_weighted_selection_witness :
    ((0 : ℤ) ≤ 3 ∧
      (3 : ℤ) < preyPopuTotal
        [("a", Prey.mk 2 2 "a" 1 0 1), ("b", Prey.mk 3 3 "b" 1 0 1)] true) ∧
    (∃ k, preySelect
        [("a", Prey.mk 2 2 "a" 1 0 1), ("b", Prey.mk 3 3 "b" 1 0 1)] true 3 =
          some k ∧
      k < ([("a", Prey.mk 2 2 "a" 1 0 1), ("b", Prey.mk 3 3 "b" 1 0 1)] :
        PreyPool).length ∧
      preySumBefore
        [("a", Prey.mk 2 2 "a" 1 0 1), ("b", Prey.mk 3 3 "b" 1 0 1)] k ≤ 3 ∧
      (3 : ℤ) < preySumBefore
        [("a", Prey.mk 2 2 "a" 1 0 1), ("b", Prey.mk 3 3 "b" 1 0 1)] k +
        (([("a", Prey.mk 2 2 "a" 1 0 1), ("b", Prey.mk 3 3 "b" 1 0 1)] :
          PreyPool).getD k default).2.popu) ∧
    (∃ k j, predSelect
        [("p", PredatorSpecies.mk 5 1 true [Pred.mk [] 0, Pred.mk [] 6])]
        true 0 = some (k, j) ∧
      k < 1 ∧
      predSumBefore
        [("p", PredatorSpecies.mk 5 1 true [Pred.mk [] 0, Pred.mk [] 6])]
        true k ≤ 0 ∧
      (0 : ℤ) < predSumBefore
        [("p", PredatorSpecies.mk 5 1 true [Pred.mk [] 0, Pred.mk [] 6])]
        true k +
        (hungryCount (([("p", PredatorSpecies.mk 5 1 true
          [Pred.mk [] 0, Pred.mk [] 6])] : PredatorPool).getD k
            default).2 : ℤ) ∧
      j = (hungryIndices (([("p", PredatorSpecies.mk 5 1 true
          [Pred.mk [] 0, Pred.mk [] 6])] : PredatorPool).getD k
            default).2).getD
        ((0 : ℤ) - predSumBefore
          [("p", PredatorSpecies.mk 5 1 true [Pred.mk [] 0, Pred.mk [] 6])]
          true k).toNat 0 ∧
      (([("p", PredatorSpecies.mk 5 1 true [Pred.mk [] 0, Pred.mk [] 6])] :
        PredatorPool).getD k default).2.hungry j = true) := by
  refine ⟨⟨by norm_num, by norm_num [preyPopuTotal, preyCountOf]⟩, ?_, ?_⟩
  · refine (C1_weighted_selection
      [("a", Prey.mk 2 2 "a" 1 0 1), ("b", Prey.mk 3 3 "b" 1 0 1)]
      [("p", PredatorSpecies.mk 5 1 true [Pred.mk [] 0, Pred.mk [] 6])]).2.1
      (by decide) 3 (by norm_num) (by norm_num [preyPopuTotal, preyCountOf])
  · refine (C1_weighted_selection
      [("a", Prey.mk 2 2 "a" 1 0 1), ("b", Prey.mk 3 3 "b" 1 0 1)]
      [("p", PredatorSpecies.mk 5 1 true [Pred.mk [] 0, Pred.mk [] 6])]).2.2.2
      0 (by norm_num) ?_
    norm_num [predPopuTotal, predCountOf, hungryCount, hungryIndices,
      PredatorSpecies.hungry, List.filter]

/-! ## Claim C4: early termination of a generation -/

/-- Hungry-only predator totals are never negative. -/
theorem predPopuTotal_hungry_nonneg (pool : PredatorPool) :
    0 ≤ predPopuTotal pool true := by
  unfold predPopuTotal
  apply List.sum_nonneg
  intro x hx
  obtain ⟨sp, hsp, rfl⟩ := List.mem_map.mp hx
  simp only [predCountOf, if_pos]
  exact Int.natCast_nonneg _

/-- Surviving prey totals are non-negative when every population is. -/
theorem preyPopuTotal_nonneg (pool : PreyPool)
    (hnn : ∀ sp ∈ pool, 0 ≤ sp.2.popu) : 0 ≤ preyPopuTotal pool true := by
  unfold preyPopuTotal
  apply List.sum_nonneg
  intro x hx
  obtain ⟨sp, hsp, rfl⟩ := List.mem_map.mp hx
  simpa [preyCountOf] using hnn sp hsp

/-- C4: the loop guard fails exactly when one of the two populations
is 0 (for valid non-negative populations); once the guard fails the
state — draw streams included — never changes again; and a run of
budget `n` is exactly `k ≤ n` cycles for some `k`, every performed
cycle starting from a state satisfying the guard, with `k < n` only
when the guard fails at the stopping state. -/
theorem C4_early_termination (n : ℕ) (st : GenState) :
    ((∀ sp ∈ st.prey, 0 ≤ sp.2.popu) →
      (¬ genCond st ↔ preyPopuTotal st.prey true = 0 ∨
        predPopuTotal st.preds true = 0)) ∧
    (¬ genCond st → oneGenGo n st = st) ∧
    ∃ k ≤ n, oneGenGo n st = cycle^[k] st ∧
      (∀ j < k, genCond (cycle^[j] st)) ∧
      (k < n → ¬ genCond (cycle^[k] st)) := by
  refine ⟨fun hnn => ?_, fun hnc => ?_, ?_⟩
  · have h1 : 0 ≤ preyPopuTotal st.prey true := preyPopuTotal_nonneg _ hnn
    have h2 : 0 ≤ predPopuTotal st.preds true :=
      predPopuTotal_hungry_nonneg st.preds
    unfold genCond
    omega
  · cases n with
    | zero => rfl
    | succ m => simp [oneGenGo, hnc]
  · induction n generalizing st with
    | zero =>
        exact ⟨0, le_refl 0, rfl, fun j hj => absurd hj (Nat.not_lt_zero j),
          fun h => absurd h (lt_irrefl 0)⟩
    | succ m ih =>
        by_cases hc : genCond st
        · obtain ⟨k, hk, heq, hall, hstop⟩ := ih (cycle st)
          refine ⟨k + 1, by omega, ?_, ?_, ?_⟩
          · rw [show oneGenGo (m + 1) st = oneGenGo m (cycle st) from by
              simp [oneGenGo, hc], heq, Function.iterate_succ_apply]
          · intro j hj
            cases j with
            | zero => simpa using hc
            | succ i =>
                have := hall i (by omega)
                simpa [Function.iterate_succ_apply] using this
          · intro hlt
            have := hstop (by omega)
            simpa [Function.iterate_succ_apply] using this
        · exact ⟨0, by omega, by simp [oneGenGo, hc],
            fun j hj => absurd hj (Nat.not_lt_zero j), fun _ => hc⟩

/-- C4 witness: with no prey and no predators the guard fails and a
budget of 5 encounters performs no cycle at all. -/
theorem C4_early_termination_witness :
    ¬ genCond (GenState.mk [] [] [] []) ∧
    oneGenGo 5 (GenState.mk [] [] [] []) = GenState.mk [] [] [] [] :=
  ⟨by decide, (C4_early_termination 5 (GenState.mk [] [] [] [])).2.1
    (by decide)⟩

/-! ## Claim C8: full camouflage -/

/-- A fully camouflaged prey yields pursuit probability 0, whatever the
predator's preference. -/
theorem pursuit_chance_camo_one (sp : PredatorSpecies) (i : ℕ) (prey : Prey)
    (h : prey.camo = 1) : pursuit_chance sp i prey = 0 := by
  unfold pursuit_chance
  rw [h]
  push_cast
  ring

/-- The remaining real-draw stream after an encounter is the input
stream or its tail. -/
theorem encounter_draws_cases (sp : PredatorSpecies) (i : ℕ) (prey : Prey)
    (draws : List ℝ) :
    (encounter sp i prey draws).2.2 = draws ∨
    (encounter sp i prey draws).2.2 = draws.tail := by
  unfold encounter
  by_cases h : sp.hungry i
  · cases draws with
    | nil => simp [h]
    | cons r rest =>
        by_cases hr : r ≤ pursuit_chance sp i prey <;> simp [h, hr]
  · simp [h]

/-- With strictly positive draws, an encounter with a fully
camouflaged prey always fails. -/
theorem encounter_camo_one_false (sp : PredatorSpecies) (i : ℕ) (prey : Prey)
    (draws : List ℝ) (hc : prey.camo = 1) (hr : ∀ r ∈ draws, 0 < r) :
    (encounter sp i prey draws).1 = false := by
  unfold encounter
  by_cases h : sp.hungry i
  · cases draws with
    | nil => simp [h]
    | cons r rest =>
        have h1 : ¬ r ≤ pursuit_chance sp i prey := by
          rw [pursuit_chance_camo_one sp i prey hc]
          have := hr r (by simp)
          linarith
        simp [h, h1]
  · simp [h]

/-- Resolution preserves a fully camouflaged prey entry, the pool
length, and draw positivity. -/
theorem resolveStep_preserves (prey : PreyPool) (preds : PredatorPool)
    (psel : Option ℕ) (qsel : Option (ℕ × ℕ)) (nats : List ℕ)
    (reals : List ℝ) (j : ℕ) (hc : (prey.getD j default).2.camo = 1)
    (hr : ∀ r ∈ reals, 0 < r) :
    (resolveStep prey preds psel qsel nats reals).prey.getD j default =
      prey.getD j default ∧
    (resolveStep prey preds psel qsel nats reals).prey.length =
      prey.length ∧
    ∀ r ∈ (resolveStep prey preds psel qsel nats reals).realDraws, 0 < r := by
  have htail : ∀ r ∈ reals.tail, 0 < r :=
    fun r hrt => hr r (List.mem_of_mem_tail hrt)
  cases psel with
  | none => exact ⟨rfl, rfl, hr⟩
  | some jsel =>
      cases qsel with
      | none => exact ⟨rfl, rfl, hr⟩
      | some ki =>
          simp only [resolveStep]
          have hdraws : ∀ r ∈ (encounter (preds.getD ki.1 default).2 ki.2
              (prey.getD jsel default).2 reals).2.2, 0 < r := by
            rcases encounter_draws_cases (preds.getD ki.1 default).2 ki.2
              (prey.getD jsel default).2 reals with h | h
            · rw [h]; exact hr
            · rw [h]; exact htail
          by_cases hate : (encounter (preds.getD ki.1 default).2 ki.2
              (prey.getD jsel default).2 reals).1 = true
          · by_cases hjj : jsel = j
            · exfalso
              subst hjj
              rw [encounter_camo_one_false _ _ _ _ hc hr] at hate
              exact Bool.false_ne_true hate
            · rw [if_pos hate]
              refine ⟨?_, by simp, hdraws⟩
              rw [List.getD_eq_getElem?_getD, List.getElem?_set_ne hjj,
                ← List.getD_eq_getElem?_getD]
          · rw [if_neg hate]
            exact ⟨rfl, rfl, hdraws⟩

/-- Unfolding of a cycle in terms of its three steps. -/
theorem cycle_eq (st : GenState) :
    cycle st = resolveStep st.prey st.preds
      (preySelStep st.prey st.natDraws).1
      (predSelStep st.preds (preySelStep st.prey st.natDraws).2).1
      (predSelStep st.preds (preySelStep st.prey st.natDraws).2).2
      st.realDraws := rfl

/-- One cycle preserves a fully camouflaged prey entry. -/
theorem cycle_preserves_camo_one (st : GenState) (j : ℕ)
    (hc : (st.prey.getD j default).2.camo = 1)
    (hr : ∀ r ∈ st.realDraws, 0 < r) :
    (cycle st).prey.getD j default = st.prey.getD j default ∧
    (cycle st).prey.length = st.prey.length ∧
    ∀ r ∈ (cycle st).realDraws, 0 < r := by
  rw [cycle_eq]
  exact resolveStep_preserves _ _ _ _ _ _ j hc hr

/-- A full generation preserves a fully camouflaged prey entry. -/
theorem oneGenGo_preserves_camo_one (n : ℕ) :
    ∀ st : GenState, ∀ j : ℕ, (st.prey.getD j default).2.camo = 1 →
      (∀ r ∈ st.realDraws, 0 < r) →
      (oneGenGo n st).prey.getD j default = st.prey.getD j default := by
  induction n with
  | zero => intro st j _ _; rfl
  | succ m ih =>
      intro st j hc hr
      by_cases hcond : genCond st
      · have hp := cycle_preserves_camo_one st j hc hr
        have hrec := ih (cycle st) j (by rw [hp.1]; exact hc) hp.2.2
        calc (oneGenGo (m + 1) st).prey.getD j default
            = (oneGenGo m (cycle st)).prey.getD j default := by
              simp [oneGenGo, hcond]
          _ = (cycle st).prey.getD j default := hrec
          _ = st.prey.getD j default := hp.1
      · simp [oneGenGo, hcond]

/-- C8 (amended): for a prey species with camouflage 1.0, pursuit
probability is 0 in every encounter regardless of the predator's
preference, and for every sequence of STRICTLY POSITIVE draws from
(0,1) — the draw 0 itself is the exception the source admits, see the
counterexample — the species' entry, its population included, is
unchanged by any number of encounters in a generation. -/
theorem C8_camo_protects (n : ℕ) (st : GenState) (j : ℕ)
    (hc : (st.prey.getD j default).2.camo = 1)
    (hr : ∀ r ∈ st.realDraws, 0 < r) :
    (∀ (sp : PredatorSpecies) (i : ℕ),
      pursuit_chance sp i (st.prey.getD j default).2 = 0) ∧
    (oneGenGo n st).prey.getD j default = st.prey.getD j default :=
  ⟨fun sp i => pursuit_chance_camo_one sp i _ hc,
    oneGenGo_preserves_camo_one n st j hc hr⟩

/-- C8 witness: one fully camouflaged prey, one hungry predator, one
positive draw; the population stays 1 after a one-encounter generation. -/
theorem C8_camo_protects_witness :
    ((([("a", Prey.mk 1 1 "a" 1 1 1)] : PreyPool).getD 0
        default).2.camo = 1) ∧
    (oneGenGo 1 (GenState.mk [("a", Prey.mk 1 1 "a" 1 1 1)]
        [("p", PredatorSpecies.mk 5 5 true [Pred.mk [] 0])] [0, 0]
        [(1 : ℝ)/2])).prey.getD 0 default =
      ([("a", Prey.mk 1 1 "a" 1 1 1)] : PreyPool).getD 0 default :=
  ⟨by decide,
    (C8_camo_protects 1 (GenState.mk [("a", Prey.mk 1 1 "a" 1 1 1)]
        [("p", PredatorSpecies.mk 5 5 true [Pred.mk [] 0])] [0, 0]
        [(1 : ℝ)/2]) 0 (by decide) (by
      intro r hrr
      simp only [List.mem_singleton] at hrr
      rw [hrr]
      norm_num)).2⟩

/-- Prey pool for the C8 counterexample: one fully camouflaged
species with population 1. -/
def c8prey : PreyPool := [("a", Prey.mk 1 1 "a" 1 1 1)]

/-- Predator pool for the C8 counterexample: one hungry individual. -/
def c8preds : PredatorPool :=
  [("p", PredatorSpecies.mk 5 5 true [Pred.mk [] 0])]

/-- C8 counterexample: the claim quantifies over draw sequences from
[0,1), but the source succeeds exactly when `pursuit_chance >= draw`,
so the draw 0 (which lies in [0,1)) makes even a pursuit probability of
0 succeed: the fully camouflaged prey's population drops from 1 to 0
after a single encounter. -/
theorem C8_camo_protects_counterexample :
    ((0 : ℝ) ≤ 0 ∧ (0 : ℝ) < 1) ∧
    (c8prey.getD 0 default).2.camo = 1 ∧
    (c8prey.getD 0 default).2.popu = 1 ∧
    ((oneGenGo 1 (GenState.mk c8prey c8preds [0, 0]
      [(0 : ℝ)])).prey.getD 0 default).2.popu = 0 := by
  refine ⟨⟨le_refl 0, by norm_num⟩, by decide, by decide, ?_⟩
  have hcond : genCond (GenState.mk c8prey c8preds [0, 0] [(0 : ℝ)]) := by
    unfold genCond
    exact ⟨by decide, by decide⟩
  have hpc : pursuit_chance (PredatorSpecies.mk 5 5 true [Pred.mk [] 0]) 0
      (Prey.mk 1 1 "a" 1 1 1) = 0 := pursuit_chance_camo_one _ _ _ rfl
  have henc : encounter (PredatorSpecies.mk 5 5 true [Pred.mk [] 0]) 0
      (Prey.mk 1 1 "a" 1 1 1) [(0 : ℝ)] =
      (true, (PredatorSpecies.mk 5 5 true [Pred.mk [] 0]).eat 0
        (Prey.mk 1 1 "a" 1 1 1), []) := by
    unfold encounter
    rw [show (PredatorSpecies.mk 5 5 true [Pred.mk [] 0]).hungry 0 = true
      from by decide]
    rw [if_pos rfl]
    simp only []
    rw [if_pos (le_of_eq hpc.symm)]
  have h1 : oneGenGo 1 (GenState.mk c8prey c8preds [0, 0] [(0 : ℝ)]) =
      cycle (GenState.mk c8prey c8preds [0, 0] [(0 : ℝ)]) := by
    simp [oneGenGo, hcond]
  rw [h1, cycle_eq]
  show ((resolveStep c8prey c8preds (some 0) (some (0, 0)) []
    [(0 : ℝ)]).prey.getD 0 default).2.popu = 0
  simp only [resolveStep]
  rw [show (c8preds.getD 0 default).2 =
      PredatorSpecies.mk 5 5 true [Pred.mk [] 0] from rfl,
    show (c8prey.getD 0 default).2 = Prey.mk 1 1 "a" 1 1 1 from rfl]
  simp only []
  rw [henc]
  simp [c8prey]

/-! ## Claim C10: terse-mode run_raw -/

/-- Shape of the terse-run recursion: `t` rows, trials numbered from
`trial` upward, generation index always the constant 1, pools taken
from a `multi_gen` run. -/
theorem runRawTerseGo_spec (sim : Simulation) :
    ∀ (t trial : ℕ) (nats : List ℕ) (reals : List ℝ),
      (runRawTerseGo sim t trial nats reals).length = t ∧
      ∀ j < t,
        ((runRawTerseGo sim t trial nats reals).getD j default).1 =
          trial + j ∧
        ((runRawTerseGo sim t trial nats reals).getD j default).2.1 = 1 ∧
        ∃ ns rs,
          ((runRawTerseGo sim t trial nats reals).getD j
            default).2.2.1 = (multi_gen sim.prey_pool sim.pred_pool
              sim.encounters sim.generations sim.repop ns rs).1 ∧
          ((runRawTerseGo sim t trial nats reals).getD j
            default).2.2.2 = (multi_gen sim.prey_pool sim.pred_pool
              sim.encounters sim.generations sim.repop ns rs).2.1 := by
  intro t
  induction t with
  | zero =>
      intro trial nats reals
      exact ⟨rfl, fun j hj => absurd hj (Nat.not_lt_zero j)⟩
  | succ m ih =>
      intro trial nats reals
      refine ⟨?_, fun j hj => ?_⟩
      · simp only [runRawTerseGo, List.length_cons]
        rw [(ih (trial + 1) _ _).1]
      · cases j with
        | zero =>
            refine ⟨by simp [runRawTerseGo], by simp [runRawTerseGo],
              nats, reals, by simp [runRawTerseGo], by simp [runRawTerseGo]⟩
        | succ i =>
            obtain ⟨ht, hg, ns, rs, hp, hq⟩ :=
              (ih (trial + 1)
                (multi_gen sim.prey_pool sim.pred_pool sim.encounters
                  sim.generations sim.repop nats reals).2.2.1
                (multi_gen sim.prey_pool sim.pred_pool sim.encounters
                  sim.generations sim.repop nats reals).2.2.2).2 i
                (by omega)
            refine ⟨?_, ?_, ns, rs, ?_, ?_⟩
            · simp only [runRawTerseGo, List.getD_cons_succ]
              rw [ht]
              omega
            · simpa only [runRawTerseGo, List.getD_cons_succ] using hg
            · simpa only [runRawTerseGo, List.getD_cons_succ] using hp
            · simpa only [runRawTerseGo, List.getD_cons_succ] using hq

/-- C10: in terse (non-verbose) mode, `run_raw` yields exactly one
tuple per trial (trials numbered 1..repetitions); the generation index
in every tuple is the constant 1 regardless of the configured number
of generations; and the yielded pools are the outputs of a `multi_gen`
run — the last generation run. -/
theorem C10_terse_run (sim : Simulation) (nats : List ℕ) (reals : List ℝ) :
    (run_raw_terse sim nats reals).length = sim.repetitions ∧
    ∀ j < sim.repetitions,
      ((run_raw_terse sim nats reals).getD j default).1 = j + 1 ∧
      ((run_raw_terse sim nats reals).getD j default).2.1 = 1 ∧
      ∃ ns rs,
        ((run_raw_terse sim nats reals).getD j default).2.2.1 =
          (multi_gen sim.prey_pool sim.pred_pool sim.encounters
            sim.generations sim.repop ns rs).1 ∧
        ((run_raw_terse sim nats reals).getD j default).2.2.2 =
          (multi_gen sim.prey_pool sim.pred_pool sim.encounters
            sim.generations sim.repop ns rs).2.1 := by
  have h := runRawTerseGo_spec sim sim.repetitions 1 nats reals
  refine ⟨h.1, fun j hj => ?_⟩
  obtain ⟨ht, hg, ns, rs, hp, hq⟩ := h.2 j hj
  refine ⟨?_, hg, ns, rs, hp, hq⟩
  rw [show run_raw_terse sim nats reals =
    runRawTerseGo sim sim.repetitions 1 nats reals from rfl, ht]
  omega

/-- C10 witness: a one-trial simulation with 3 configured generations
and a zero encounter budget; the single yielded row reports generation
index 1. -/
theorem C10_terse_run_witness :
    0 < (Simulation.mk [] [] 0 3 1 false).repetitions ∧
    ((run_raw_terse (Simulation.mk [] [] 0 3 1 false) [] []).getD 0
      default).1 = 0 + 1 ∧
    ((run_raw_terse (Simulation.mk [] [] 0 3 1 false) [] []).getD 0
      default).2.1 = 1 :=
  ⟨by decide,
    ((C10_terse_run (Simulation.mk [] [] 0 3 1 false) [] []).2 0
      (by decide)).1,
    ((C10_terse_run (Simulation.mk [] [] 0 3 1 false) [] []).2 0
      (by decide)).2.1⟩

end Mimsim
